import Mathlib

/-!
# Shallow embedding of the Consensus debate orchestrator

This file embeds the core of `src/consensus/main.py` (a multi-round
multi-LLM debate orchestrator) in Lean 4 and proves the frozen claims
about it.

Modelling conventions:
* Python `dict` values are embedded as insertion-ordered association
  lists (`List (String × α)`); `dictInsert` updates an existing key in
  place (keeping its position, as CPython does) and appends a new key
  at the end, and `dictGet` is the ordered lookup.
* The HTTP world behind each adapter call is abstracted as an
  `HttpOutcome` supplied by an environment `Env`; the adapters'
  response-handling branches (status check, error-body extraction,
  timeout, catch-all) are embedded faithfully.  Request construction
  (headers, payloads) is I/O plumbing with no influence on the
  returned text and is not part of the embedding.
* `asyncio.gather` returns results in task-submission order regardless
  of completion order; the embedding therefore pairs each participant
  with its result in configured order, which is exactly the Python
  semantics being relied upon.
* A raised exception inside the Python generator aborts the event
  stream; fallible steps are embedded with `Except String`, and the
  stream function returns the events emitted before the abort together
  with a completion flag (`true` iff the generator finished normally).
* Python `set` iteration order is arbitrary; the embedding enumerates
  a set of tokens in first-occurrence order of the first response.
  Claims never depend on the enumeration order except where the
  arbitrary truncation `[:10]` itself is at issue.
-/

/-- One conversation turn, as the Python `{"role": ..., "content": ...}` dict. -/
structure Message where
  role : String
  content : String
deriving DecidableEq, Repr

/-- One entry of the static `MODELS` catalog. -/
structure ModelConfig where
  name : String
  color : String
  api_url : String
  model : String
deriving DecidableEq, Repr

/-- Ordered lookup in an insertion-ordered association list (Python `d[k]`,
returning `none` where Python raises `KeyError`). -/
def dictGet {α : Type} : List (String × α) → String → Option α
  | [], _ => none
  | (k, v) :: rest, key => if k = key then some v else dictGet rest key

/-- Python `d[k] = v`: update the value in place when the key exists
(keeping its position), otherwise append the new binding at the end. -/
def dictInsert {α : Type} : List (String × α) → String → α → List (String × α)
  | [], key, v => [(key, v)]
  | (k, w) :: rest, key, v =>
    if k = key then (k, v) :: rest else (k, w) :: dictInsert rest key v

/-- The keys of an association list, in order (Python `list(d)`). -/
def keysOf {α : Type} (d : List (String × α)) : List String := d.map (·.1)

/-- The static `MODELS` configuration dict of `main.py`. -/
def MODELS : List (String × ModelConfig) :=
  [("claude",
    { name := "Claude", color := "#D97706",
      api_url := "https://api.anthropic.com/v1/messages",
      model := "claude-sonnet-4-20250514" }),
   ("gpt",
    { name := "GPT-4o", color := "#10B981",
      api_url := "https://api.openai.com/v1/chat/completions",
      model := "gpt-4o" }),
   ("gemini",
    { name := "Gemini", color := "#3B82F6",
      api_url := "https://generativelanguage.googleapis.com/v1beta/models/gemini-1.5-flash:generateContent",
      model := "gemini-1.5-flash" })]

/-- `DebateRequest` (pydantic model).  `rounds` is a plain `int` (so it may
be zero or negative); `api_keys` maps provider families to secrets and only
influences the HTTP world, which the embedding abstracts as `Env`. -/
structure DebateRequest where
  context : String
  question : String
  api_keys : List (String × String)
  models : List String
  rounds : Int
deriving DecidableEq, Repr

/-- The consensus `analysis` object returned by `analyze_consensus`. -/
structure Analysis where
  models_compared : List String
  common_themes : List String
  response_lengths : List (String × Nat)
deriving DecidableEq, Repr

/-- One logical event of the debate stream (the JSON payload of one
`data: ...` line): a per-round per-participant response, the consensus
payload, or the terminal marker. -/
inductive Event where
  | round (round_num : Nat) (model : String) (model_name : String)
      (color : String) (response : String) (is_revision : Bool)
  | consensus (summary : String) (analysis : Analysis)
  | done
deriving DecidableEq, Repr

/-- Outcome of one HTTP POST issued by an adapter: a 200 response whose body
parsed to the expected shape and yielded `text`; a non-200 status together
with the human-readable detail the adapter extracts (the structured
`error.message` when the body parses to one, else the raw body text); a
timeout; or any other transport or parsing failure with its message. -/
inductive HttpOutcome where
  | success (text : String)
  | badStatus (code : Nat) (errorMessage : Option String) (rawText : String)
  | timeout
  | failure (msg : String)
deriving DecidableEq, Repr

/-- `call_claude`: response handling of the Claude adapter.  Non-200 →
`"Claude API Error (code): detail"` with detail from the structured error
body when present, else the raw text; timeout → a fixed string; any other
exception → `"Error calling Claude: ..."`.  Total: every branch returns a
string, as the Python `try/except` guarantees. -/
def call_claude : HttpOutcome → String
  | .success text => text
  | .badStatus code errorMessage rawText =>
    "Claude API Error (" ++ toString code ++ "): " ++ (errorMessage.getD rawText)
  | .timeout => "Error: Claude API request timed out"
  | .failure msg => "Error calling Claude: " ++ msg

/-- `call_gpt`: response handling of the OpenAI adapter (same structure as
`call_claude` with GPT-specific strings). -/
def call_gpt : HttpOutcome → String
  | .success text => text
  | .badStatus code errorMessage rawText =>
    "GPT API Error (" ++ toString code ++ "): " ++ (errorMessage.getD rawText)
  | .timeout => "Error: GPT API request timed out"
  | .failure msg => "Error calling GPT: " ++ msg

/-- `call_gemini`: response handling of the Gemini adapter (same structure
as `call_claude` with Gemini-specific strings). -/
def call_gemini : HttpOutcome → String
  | .success text => text
  | .badStatus code errorMessage rawText =>
    "Gemini API Error (" ++ toString code ++ "): " ++ (errorMessage.getD rawText)
  | .timeout => "Error: Gemini API request timed out"
  | .failure msg => "Error calling Gemini: " ++ msg

/-- The environment: what the HTTP world answers when a given provider is
called with a given conversation and system instruction.  A fixed `Env`
models fixed, deterministic adapter outcomes. -/
abbrev Env := String → List Message → Option String → HttpOutcome

/-- `call_model`: the provider router.  Dispatches to the adapter matching
`model_id`; unknown identifiers yield the sentinel string
`"Unknown model: <id>"` instead of an exception. -/
def call_model (env : Env) (model_id : String) (messages : List Message)
    (system : Option String) : String :=
  if model_id = "claude" then call_claude (env "claude" messages system)
  else if model_id = "gpt" then call_gpt (env "gpt" messages system)
  else if model_id = "gemini" then call_gemini (env "gemini" messages system)
  else "Unknown model: " ++ model_id

/-- Splitting a character sequence on whitespace runs, dropping empty
pieces, accumulating the current token in reverse in `cur` (the semantics
of Python `str.split()` with no separator argument). -/
def splitWSAux : List Char → List Char → List String
  | [], cur => if cur.isEmpty then [] else [String.mk cur.reverse]
  | c :: rest, cur =>
    if c.isWhitespace then
      if cur.isEmpty then splitWSAux rest []
      else String.mk cur.reverse :: splitWSAux rest []
    else splitWSAux rest (c :: cur)

/-- Python `resp.lower().split()`: lower-case, then split on whitespace
dropping empty pieces.  (`Char.toLower` is ASCII-only where Python's
`str.lower` is Unicode-aware; the difference is immaterial to the claims,
which involve ASCII tokens.) -/
def tokenize (s : String) : List String :=
  splitWSAux (s.data.map Char.toLower) []

/-- The fixed stop-word set of `analyze_consensus`. -/
def stop_words : List String :=
  ["the", "a", "an", "is", "are", "was", "were", "be", "been",
   "being", "have", "has", "had", "do", "does", "did", "will",
   "would", "could", "should", "may", "might", "must", "shall",
   "can", "of", "to", "in", "for", "on", "with", "at", "by",
   "from", "as", "into", "through", "during", "before", "after",
   "above", "below", "between", "under", "again", "further",
   "then", "once", "here", "there", "when", "where", "why",
   "how", "all", "each", "few", "more", "most", "other", "some",
   "such", "no", "nor", "not", "only", "own", "same", "so",
   "than", "too", "very", "just", "and", "but", "if", "or",
   "because", "until", "while", "although", "this", "that",
   "these", "those", "i", "you", "he", "she", "it", "we", "they",
   "what", "which", "who", "whom", "its", "his", "her", "their",
   "our", "your", "my", "-", "–", "—", ".", ",", ":", ";", "!", "?"]

/-- The `meaningful_common` set of `analyze_consensus`: when at least two
participants are present, the intersection of all participants' token sets
minus the stop words and minus tokens of length ≤ 3; otherwise empty.
Python enumerates this set in unspecified (hash) order; the embedding
enumerates it in first-occurrence order of the first participant's tokens,
one deterministic refinement of that order. -/
def meaningfulCommon (response_words : List (String × List String)) : List String :=
  if response_words.length > 1 then
    match response_words with
    | [] => []
    | (_, first) :: rest =>
      ((first.dedup.filter (fun w => rest.all (fun p => p.2.contains w))).filter
        (fun w => ¬ stop_words.contains w)).filter (fun w => w.length > 3)
  else []

/-- `analyze_consensus`: word-overlap analysis of the final responses
(given as the insertion-ordered contents of the Python dict). -/
def analyze_consensus (responses : List (String × String)) : Analysis :=
  let response_words := responses.map (fun p => (p.1, tokenize p.2))
  { models_compared := responses.map (·.1)
    common_themes := (meaningfulCommon response_words).take 10
    response_lengths := responses.map (fun p => (p.1, p.2.length)) }

/-- Per-participant response history of one debate: the `all_responses`
dict, mapping participant id to its responses so far, one per round. -/
abbrev DictS := List (String × List String)

/-- The round-1 system instruction (verbatim, including trailing spaces). -/
def round1System : String :=
  "You are participating in a multi-AI debate. \nGive your honest, well-reasoned response to the question. \nBe concise but thorough. Structure your response clearly."

/-- The round-1 user content: context and question only. -/
def round1Content (req : DebateRequest) : String :=
  "Context: " ++ req.context ++ "\n\nQuestion: " ++ req.question ++
    "\n\nPlease provide your analysis and answer."

/-- The system instruction for rounds after the first (verbatim). -/
def revisionSystem : String :=
  "You are participating in a multi-AI debate. \nYou've seen other AI models' responses. Now:\n1. Note where you agree or disagree\n2. Critique any flawed reasoning you see\n3. Revise your position if warranted, or defend it if you stand by it\nBe direct and substantive. Don't be sycophantic."

/-- The user content of rounds after the first, given the participant's own
previous answer (`own`) and the newline-joined labeled listing of the other
participants' latest answers (`joined`). -/
def laterContent (req : DebateRequest) (own : String) (joined : String) : String :=
  "Context: " ++ req.context ++ "\n\nQuestion: " ++ req.question ++
    "\n\nYour previous response: " ++ own ++
    "\n\nOther models' responses:\n" ++ joined ++
    "\n\nPlease critique the other responses and revise your position if needed. What do you agree on? Where do you disagree?"

/-- Python `"\n".join(items)`. -/
def joinNL : List String → String
  | [] => ""
  | [s] => s
  | s :: rest => s ++ "\n" ++ joinNL rest

/-- The `other_responses` loop of rounds after the first: in configured
order, every participant other than `model_id` whose history is non-empty
contributes `"**<display name>**: <latest response>"`.  The catalog lookup
`MODELS[other_model]["name"]` and the history lookup may raise (`.error`),
aborting the stream. -/
def collectOthers (d : DictS) (model_id : String) : List String → Except String (List String)
  | [] => .ok []
  | other :: rest =>
    if other = model_id then collectOthers d model_id rest
    else
      match dictGet d other with
      | none => .error ("KeyError: " ++ other)
      | some hist =>
        match hist.getLast? with
        | none => collectOthers d model_id rest
        | some last =>
          match dictGet MODELS other with
          | none => .error ("KeyError: " ++ other)
          | some cfg =>
            (collectOthers d model_id rest).map
              (fun tail => ("**" ++ cfg.name ++ "**: " ++ last) :: tail)

/-- Prompt construction for one participant in one round: the round-1
branch uses only the request's context and question; later rounds embed the
participant's own last answer (or `'N/A'` when its history is empty) and
the labeled answers of the others. -/
def roundPrompt (req : DebateRequest) (d : DictS) (round_num : Nat)
    (model_id : String) : Except String (List Message × Option String) :=
  if round_num = 1 then
    .ok ([⟨"user", round1Content req⟩], some round1System)
  else
    match collectOthers d model_id req.models with
    | .error e => .error e
    | .ok others =>
      match dictGet d model_id with
      | none => .error ("KeyError: " ++ model_id)
      | some hist =>
        let own := match hist.getLast? with
          | some x => x
          | none => "N/A"
        .ok ([⟨"user", laterContent req own (joinNL others)⟩], some revisionSystem)

/-- The per-round task list: one `(model_id, response)` pair per configured
participant, in configured order.  `asyncio.gather` preserves submission
order, so the pairing is by configured order regardless of completion
order; any prompt-construction exception aborts before results exist. -/
def buildTasks (env : Env) (req : DebateRequest) (d : DictS) (round_num : Nat) :
    List String → Except String (List (String × String))
  | [] => .ok []
  | model_id :: rest =>
    match roundPrompt req d round_num model_id with
    | .error e => .error e
    | .ok (messages, system) =>
      (buildTasks env req d round_num rest).map
        (fun tail => (model_id, call_model env model_id messages system) :: tail)

/-- The post-barrier emission loop of one round: in pair order, append the
response to the participant's history, then build and yield the RoundEvent.
`MODELS[model_id]` raises for an unknown id, aborting the stream after the
events already yielded. -/
def emitPairs (d : DictS) (round_num : Nat) :
    List (String × String) → List Event × Except String DictS
  | [] => ([], .ok d)
  | (model_id, response) :: rest =>
    match dictGet d model_id with
    | none => ([], .error ("KeyError: " ++ model_id))
    | some hist =>
      let d2 := dictInsert d model_id (hist ++ [response])
      match dictGet MODELS model_id with
      | none => ([], .error ("KeyError: " ++ model_id))
      | some cfg =>
        let ev := Event.round round_num model_id cfg.name cfg.color response
          (decide (1 < round_num))
        let (evs, res) := emitPairs d2 round_num rest
        (ev :: evs, res)

/-- The outer round loop: for each round number, build the tasks, run them,
emit the round's events, then advance with the grown histories.  Any
exception ends the stream, keeping the events already yielded. -/
def runRounds (env : Env) (req : DebateRequest) :
    DictS → List Nat → List Event × Except String DictS
  | d, [] => ([], .ok d)
  | d, r :: rs =>
    match buildTasks env req d r req.models with
    | .error e => ([], .error e)
    | .ok pairs =>
      let (evs, res) := emitPairs d r pairs
      match res with
      | .error e => (evs, .error e)
      | .ok d2 =>
        let (evs2, res2) := runRounds env req d2 rs
        (evs ++ evs2, res2)

/-- `{model_id: responses[-1] for ...}`: each participant's last history
entry, in dict order; raises `IndexError` at the first empty history. -/
def buildFinal : DictS → Except String (List (String × String))
  | [] => .ok []
  | (model_id, hist) :: rest =>
    match hist.getLast? with
    | none => .error "IndexError: list index out of range"
    | some last => (buildFinal rest).map (fun tail => (model_id, last) :: tail)

/-- The labeled per-participant middle section of the summary prompt;
`MODELS[model_id]["name"]` raises for an unknown id. -/
def summaryBody : List (String × String) → Except String String
  | [] => .ok ""
  | (model_id, response) :: rest =>
    match dictGet MODELS model_id with
    | none => .error ("KeyError: " ++ model_id)
    | some cfg =>
      (summaryBody rest).map
        (fun tail => "**" ++ cfg.name ++ "**: " ++ response ++ "\n\n" ++ tail)

/-- The closing section of the summary prompt (verbatim). -/
def summaryTail : String :=
  "\nProvide a brief consensus summary:\n1. **Areas of Agreement**: What do the models agree on?\n2. **Areas of Disagreement**: Where do they differ?\n3. **Key Insights**: What are the most valuable takeaways?\n\nBe concise and specific."

/-- The full consensus-summary prompt. -/
def summaryPrompt (req : DebateRequest) (final : List (String × String)) :
    Except String String :=
  (summaryBody final).map
    (fun body =>
      "Analyze these AI responses to the question: \"" ++ req.question ++ "\"\n\n"
        ++ body ++ summaryTail)

/-- The neutral-analyst system instruction of the summary call (verbatim). -/
def neutralSystem : String :=
  "You are a neutral analyst summarizing a debate between AI models. Be objective and balanced."

/-- The `all_responses` initialization loop: one empty history per
configured participant. -/
def initResponses (req : DebateRequest) : DictS :=
  req.models.foldl (fun d m => dictInsert d m []) []

/-- Python `range(1, rounds + 1)` as a list of 1-based round numbers;
empty when `rounds < 1`. -/
def roundNumbers (rounds : Int) : List Nat :=
  (List.range rounds.toNat).map (fun i => i + 1)

/-- `run_debate_stream`: the whole debate generator.  Returns the events
yielded, paired with `true` iff the generator ran to completion (`false`
models an uncaught exception aborting the stream). -/
def run_debate_stream (env : Env) (req : DebateRequest) : List Event × Bool :=
  let (evs, res) := runRounds env req (initResponses req) (roundNumbers req.rounds)
  match res with
  | .error _ => (evs, false)
  | .ok all_responses =>
    match buildFinal all_responses with
    | .error _ => (evs, false)
    | .ok final_responses =>
      let consensus := analyze_consensus final_responses
      match req.models with
      | [] => (evs, false)
      | summary_model :: _ =>
        match summaryPrompt req final_responses with
        | .error _ => (evs, false)
        | .ok sp =>
          let summary := call_model env summary_model [⟨"user", sp⟩] (some neutralSystem)
          (evs ++ [Event.consensus summary consensus, Event.done], true)

/-- The `(round, participant)` key of a RoundEvent; `none` for the
consensus and done events. -/
def eventKey : Event → Option (Nat × String)
  | .round r m _ _ _ _ => some (r, m)
  | _ => none

/-- The response text of a RoundEvent belonging to participant `m`. -/
def respOf (m : String) : Event → Option String
  | .round _ m2 _ _ resp _ => if m2 = m then some resp else none
  | _ => none

/-- Whether an event is a RoundEvent. -/
def isRoundEvent : Event → Bool
  | .round _ _ _ _ _ _ => true
  | _ => false

/-- Display name of a participant per the static catalog (empty for ids
outside the catalog; only used where the catalog lookup is known good). -/
def specName (m : String) : String :=
  match dictGet MODELS m with
  | some cfg => cfg.name
  | none => ""

/-- Display color of a participant per the static catalog. -/
def specColor (m : String) : String :=
  match dictGet MODELS m with
  | some cfg => cfg.color
  | none => ""

/-- `needle` occurs contiguously inside `hay`. -/
def containsStr (hay needle : String) : Prop :=
  ∃ pre post, hay = pre ++ needle ++ post

/-- `p` is a literal prefix of `s`. -/
def strHasPrefix (p s : String) : Prop :=
  ∃ rest, s = p ++ rest

/-- Every configured participant is in the static catalog. -/
def KnownModels (req : DebateRequest) : Prop :=
  ∀ m ∈ req.models, (dictGet MODELS m).isSome

theorem dictGet_dictInsert_self {α : Type} (d : List (String × α)) (k : String) (v : α) :
    dictGet (dictInsert d k v) k = some v := by
  induction d with
  | nil => simp [dictInsert, dictGet]
  | cons p rest ih =>
    obtain ⟨k2, w⟩ := p
    by_cases h : k2 = k
    · simp [dictInsert, dictGet, h]
    · simp [dictInsert, dictGet, h, ih]

theorem dictGet_dictInsert_ne {α : Type} (d : List (String × α)) (k k2 : String) (v : α)
    (h : k2 ≠ k) : dictGet (dictInsert d k v) k2 = dictGet d k2 := by
  have h' : ¬ k = k2 := fun h2 => h h2.symm
  induction d with
  | nil => simp [dictInsert, dictGet, h']
  | cons p rest ih =>
    obtain ⟨k3, w⟩ := p
    by_cases h3 : k3 = k
    · subst h3
      simp [dictInsert, dictGet, h']
    · simp only [dictInsert, if_neg h3, dictGet]
      by_cases h4 : k3 = k2
      · simp [h4]
      · simp [h4, ih]

theorem mem_keysOf_iff {α : Type} (d : List (String × α)) (m : String) :
    m ∈ keysOf d ↔ (dictGet d m).isSome := by
  induction d with
  | nil => simp [keysOf, dictGet]
  | cons p rest ih =>
    obtain ⟨k, v⟩ := p
    by_cases h : k = m
    · simp [keysOf, dictGet, h]
    · have h' : ¬ m = k := fun h2 => h h2.symm
      simpa [keysOf, dictGet, h, h'] using ih

theorem keysOf_dictInsert {α : Type} (d : List (String × α)) (k : String) (v : α) :
    keysOf (dictInsert d k v) =
      if k ∈ keysOf d then keysOf d else keysOf d ++ [k] := by
  induction d with
  | nil => simp [dictInsert, keysOf]
  | cons p rest ih =>
    obtain ⟨k2, w⟩ := p
    by_cases h : k2 = k
    · simp [dictInsert, keysOf, h]
    · have h' : ¬ k = k2 := fun h2 => h h2.symm
      simp only [dictInsert, if_neg h, keysOf, List.map_cons]
      simp only [keysOf] at ih
      rw [ih]
      by_cases h2 : k ∈ List.map (fun x => x.1) rest
      · simp [h2, List.mem_cons, h']
      · simp [h2, List.mem_cons, h']

/-- The history dict is well-formed for the request: every configured
participant has an entry, every entry's key is a configured participant,
and keys are not duplicated. -/
def GoodState (req : DebateRequest) (d : DictS) : Prop :=
  (∀ m ∈ req.models, m ∈ keysOf d) ∧ (∀ m ∈ keysOf d, m ∈ req.models) ∧ (keysOf d).Nodup

theorem foldl_init_preserve (l : List String) (d : DictS) (m : String)
    (h : dictGet d m = some []) :
    dictGet (l.foldl (fun acc x => dictInsert acc x []) d) m = some [] := by
  induction l generalizing d with
  | nil => simpa using h
  | cons x xs ih =>
    simp only [List.foldl_cons]
    apply ih
    by_cases h2 : m = x
    · subst h2; exact dictGet_dictInsert_self d m []
    · rw [dictGet_dictInsert_ne d x m [] h2]; exact h

theorem foldl_init_mem : ∀ (l : List String) (d : DictS) (m : String), m ∈ l →
    dictGet (l.foldl (fun acc x => dictInsert acc x []) d) m = some [] := by
  intro l
  induction l with
  | nil => intro d m h; cases h
  | cons x xs ih =>
    intro d m h
    simp only [List.foldl_cons]
    cases h with
    | head => exact foldl_init_preserve xs _ _ (dictGet_dictInsert_self d x [])
    | tail _ hm => exact ih _ _ hm

theorem initResponses_get (req : DebateRequest) (m : String) (h : m ∈ req.models) :
    dictGet (initResponses req) m = some [] :=
  foldl_init_mem req.models [] m h

theorem foldl_init_keys : ∀ (l : List String) (d : DictS) (m : String),
    m ∈ keysOf (l.foldl (fun acc x => dictInsert acc x []) d) → m ∈ keysOf d ∨ m ∈ l := by
  intro l
  induction l with
  | nil => intro d m h; exact Or.inl h
  | cons x xs ih =>
    intro d m h
    simp only [List.foldl_cons] at h
    rcases ih _ _ h with h2 | h2
    · rw [keysOf_dictInsert] at h2
      by_cases hx : x ∈ keysOf d
      · rw [if_pos hx] at h2; exact Or.inl h2
      · rw [if_neg hx] at h2
        rcases List.mem_append.mp h2 with h3 | h3
        · exact Or.inl h3
        · simp only [List.mem_singleton] at h3
          exact Or.inr (by rw [h3]; exact List.mem_cons_self x xs)
    · exact Or.inr (List.mem_cons_of_mem x h2)

theorem foldl_init_nodup : ∀ (l : List String) (d : DictS), (keysOf d).Nodup →
    (keysOf (l.foldl (fun acc x => dictInsert acc x []) d)).Nodup := by
  intro l
  induction l with
  | nil => intro d h; exact h
  | cons x xs ih =>
    intro d h
    simp only [List.foldl_cons]
    apply ih
    rw [keysOf_dictInsert]
    by_cases hx : x ∈ keysOf d
    · rw [if_pos hx]; exact h
    · rw [if_neg hx]
      simp [List.nodup_append, h, hx, List.disjoint_singleton]

theorem GoodState_init (req : DebateRequest) : GoodState req (initResponses req) := by
  refine ⟨fun m hm => ?_, fun m hm => ?_, ?_⟩
  · rw [mem_keysOf_iff, initResponses_get req m hm]
    rfl
  · rcases foldl_init_keys req.models [] m hm with h | h
    · simp [keysOf] at h
    · exact h
  · exact foldl_init_nodup req.models [] (by simp [keysOf])

theorem dictGet_of_mem_nodup {α : Type} : ∀ (d : List (String × α)),
    (keysOf d).Nodup → ∀ p ∈ d, dictGet d p.1 = some p.2 := by
  intro d
  induction d with
  | nil => intro _ p hp; cases hp
  | cons q rest ih =>
    intro hnd p hp
    obtain ⟨k, v⟩ := q
    simp only [keysOf, List.map_cons, List.nodup_cons] at hnd
    cases hp with
    | head => simp [dictGet]
    | tail _ hp2 =>
      have hk : k ≠ p.1 := by
        intro he
        exact hnd.1 (he ▸ (List.mem_map.mpr ⟨p, hp2, rfl⟩))
      simp only [dictGet, if_neg hk]
      exact ih hnd.2 p hp2

theorem specName_eq (m : String) (cfg : ModelConfig) (h : dictGet MODELS m = some cfg) :
    specName m = cfg.name := by simp [specName, h]

theorem specColor_eq (m : String) (cfg : ModelConfig) (h : dictGet MODELS m = some cfg) :
    specColor m = cfg.color := by simp [specColor, h]

/-- The response produced for participant `m` in one round, as a function
of the pre-round state: its prompt fed through the router. -/
def taskResp (env : Env) (req : DebateRequest) (d : DictS) (r : Nat) (m : String) : String :=
  match roundPrompt req d r m with
  | .ok (messages, system) => call_model env m messages system
  | .error _ => ""

theorem roundPrompt_one (req : DebateRequest) (d : DictS) (m : String) :
    roundPrompt req d 1 m = .ok ([⟨"user", round1Content req⟩], some round1System) := by
  simp [roundPrompt]

/-- The list built by the `other_responses` loop, as a total function of
the state (used where all lookups are known to succeed). -/
def collectOthersSpec (d : DictS) (m0 : String) (l : List String) : List String :=
  l.filterMap (fun o =>
    if o = m0 then none
    else
      match dictGet d o with
      | none => none
      | some hist =>
        match hist.getLast? with
        | none => none
        | some last => some ("**" ++ specName o ++ "**: " ++ last))

theorem collectOthers_ok (d : DictS) (m0 : String) :
    ∀ (l : List String), (∀ o ∈ l, o ∈ keysOf d ∧ (dictGet MODELS o).isSome) →
    collectOthers d m0 l = .ok (collectOthersSpec d m0 l) := by
  intro l
  induction l with
  | nil => intro _; rfl
  | cons o rest ih =>
    intro h
    have hrest := fun o2 ho2 => h o2 (List.mem_cons_of_mem o ho2)
    obtain ⟨hkey, hmod⟩ := h o (List.mem_cons_self o rest)
    by_cases he : o = m0
    · simp [collectOthers, collectOthersSpec, he, ih hrest]
    · obtain ⟨hist, hhist⟩ := Option.isSome_iff_exists.mp ((mem_keysOf_iff d o).mp hkey)
      obtain ⟨cfg, hcfg⟩ := Option.isSome_iff_exists.mp hmod
      cases hl : hist.getLast? with
      | none => simp [collectOthers, collectOthersSpec, he, hhist, hl, ih hrest]
      | some last =>
        simp [collectOthers, collectOthersSpec, he, hhist, hl, hcfg, ih hrest,
          specName_eq o cfg hcfg, Except.map]

/-- `hist[-1] if hist else 'N/A'`. -/
def histLast (hist : List String) : String :=
  match hist.getLast? with
  | some x => x
  | none => "N/A"

theorem roundPrompt_later (req : DebateRequest) (d : DictS) (r : Nat) (m : String)
    (hr : r ≠ 1) (hall : ∀ o ∈ req.models, o ∈ keysOf d ∧ (dictGet MODELS o).isSome)
    (hm : m ∈ keysOf d) :
    ∃ hist, dictGet d m = some hist ∧
      roundPrompt req d r m = .ok
        ([⟨"user", laterContent req (histLast hist)
            (joinNL (collectOthersSpec d m req.models))⟩],
         some revisionSystem) := by
  obtain ⟨hist, hhist⟩ := Option.isSome_iff_exists.mp ((mem_keysOf_iff d m).mp hm)
  refine ⟨hist, hhist, ?_⟩
  simp [roundPrompt, hr, collectOthers_ok d m req.models hall, hhist, histLast]

theorem roundPrompt_any (req : DebateRequest) (d : DictS) (r : Nat) (m : String)
    (hall : ∀ o ∈ req.models, o ∈ keysOf d ∧ (dictGet MODELS o).isSome)
    (hm : m ∈ req.models) : ∃ p, roundPrompt req d r m = .ok p := by
  by_cases hr : r = 1
  · subst hr; exact ⟨_, roundPrompt_one req d m⟩
  · obtain ⟨hist, _, heq⟩ := roundPrompt_later req d r m hr hall ((hall m hm).1)
    exact ⟨_, heq⟩

theorem buildTasks_ok (env : Env) (req : DebateRequest) (d : DictS) (r : Nat) :
    ∀ (l : List String), (∀ m ∈ l, ∃ p, roundPrompt req d r m = .ok p) →
    buildTasks env req d r l = .ok (l.map (fun m => (m, taskResp env req d r m))) := by
  intro l
  induction l with
  | nil => intro _; rfl
  | cons m rest ih =>
    intro h
    obtain ⟨p, hp⟩ := h m (List.mem_cons_self m rest)
    obtain ⟨messages, system⟩ := p
    simp only [buildTasks, hp, ih (fun m2 hm2 => h m2 (List.mem_cons_of_mem m hm2))]
    simp [taskResp, hp, Except.map]

theorem emitPairs_ok : ∀ (pairs : List (String × String)) (d : DictS) (r : Nat),
    (∀ p ∈ pairs, p.1 ∈ keysOf d ∧ (dictGet MODELS p.1).isSome) →
    ∃ d', emitPairs d r pairs =
      (pairs.map (fun p => Event.round r p.1 (specName p.1) (specColor p.1) p.2
        (decide (1 < r))), .ok d')
    ∧ keysOf d' = keysOf d
    ∧ ∀ m, dictGet d' m = (dictGet d m).map
        (fun h => h ++ (pairs.filter (fun p => p.1 == m)).map (·.2)) := by
  intro pairs
  induction pairs with
  | nil =>
    intro d r _
    refine ⟨d, by simp [emitPairs], rfl, fun m => ?_⟩
    cases dictGet d m <;> simp
  | cons q rest ih =>
    intro d r h
    obtain ⟨k, v⟩ := q
    obtain ⟨hkey, hmod⟩ := h (k, v) (List.mem_cons_self (k, v) rest)
    obtain ⟨hist, hhist⟩ := Option.isSome_iff_exists.mp ((mem_keysOf_iff d k).mp hkey)
    obtain ⟨cfg, hcfg⟩ := Option.isSome_iff_exists.mp hmod
    have hkeys2 : keysOf (dictInsert d k (hist ++ [v])) = keysOf d := by
      rw [keysOf_dictInsert, if_pos hkey]
    have hrest : ∀ p ∈ rest, p.1 ∈ keysOf (dictInsert d k (hist ++ [v]))
        ∧ (dictGet MODELS p.1).isSome := by
      intro p hp
      obtain ⟨h1, h2⟩ := h p (List.mem_cons_of_mem (k, v) hp)
      exact ⟨hkeys2 ▸ h1, h2⟩
    obtain ⟨d', heq, hkeys, hget⟩ := ih (dictInsert d k (hist ++ [v])) r hrest
    refine ⟨d', ?_, by rw [hkeys, hkeys2], fun m => ?_⟩
    · simp [emitPairs, hhist, hcfg, heq, specName_eq k cfg hcfg, specColor_eq k cfg hcfg]
    · rw [hget m]
      by_cases hm : k = m
      · subst hm
        rw [dictGet_dictInsert_self, hhist]
        simp [List.append_assoc]
      · rw [dictGet_dictInsert_ne d k m (hist ++ [v]) (fun h2 => hm h2.symm)]
        have : (k == m) = false := beq_eq_false_iff_ne.mpr hm
        cases dictGet d m <;> simp [this]

theorem filter_map_pairs (f : String → String) (m : String) :
    ∀ (l : List String),
    ((l.map (fun x => (x, f x))).filter (fun p => p.1 == m)).map (·.2)
      = List.replicate (l.count m) (f m) := by
  intro l
  induction l with
  | nil => simp
  | cons x xs ih =>
    by_cases h : x = m
    · subst h
      simp only [List.map_cons, List.filter_cons, List.count_cons_self]
      simp [ih, List.replicate_succ]
    · have hb : (x == m) = false := beq_eq_false_iff_ne.mpr h
      simp only [List.map_cons, List.filter_cons, hb]
      simp [ih, List.count_cons, h]

theorem listFlatMapCongr {α β : Type} : ∀ (l : List α) (f g : α → List β),
    (∀ a ∈ l, f a = g a) → l.flatMap f = l.flatMap g := by
  intro l f g
  induction l with
  | nil => intro _; rfl
  | cons a rest ih =>
    intro h
    simp only [List.flatMap_cons, h a (List.mem_cons_self a rest),
      ih (fun b hb => h b (List.mem_cons_of_mem a hb))]

theorem runRounds_master (env : Env) (req : DebateRequest) (hK : KnownModels req) :
    ∀ (rs : List Nat) (d : DictS), rs.Nodup → GoodState req d →
    ∃ (respFn : Nat → String → String) (d' : DictS),
      runRounds env req d rs =
        (rs.flatMap (fun r => req.models.map (fun m =>
          Event.round r m (specName m) (specColor m) (respFn r m) (decide (1 < r)))),
         .ok d')
      ∧ keysOf d' = keysOf d
      ∧ (∀ m, dictGet d' m = (dictGet d m).map
          (fun h => h ++ rs.flatMap
            (fun r => List.replicate (req.models.count m) (respFn r m)))) := by
  intro rs
  induction rs with
  | nil =>
    intro d _ _
    refine ⟨fun _ _ => "", d, by simp [runRounds], rfl, fun m => ?_⟩
    cases dictGet d m <;> simp
  | cons r rest ih =>
    intro d hnd hgood
    obtain ⟨hkeys_all, hkeys_sub, hkeys_nd⟩ := hgood
    have hall : ∀ o ∈ req.models, o ∈ keysOf d ∧ (dictGet MODELS o).isSome :=
      fun o ho => ⟨hkeys_all o ho, hK o ho⟩
    have hbt := buildTasks_ok env req d r req.models
      (fun m hm => roundPrompt_any req d r m hall hm)
    have hpairs : ∀ p ∈ req.models.map (fun m => (m, taskResp env req d r m)),
        p.1 ∈ keysOf d ∧ (dictGet MODELS p.1).isSome := by
      intro p hp
      obtain ⟨m, hm, rfl⟩ := List.mem_map.mp hp
      exact ⟨hkeys_all m hm, hK m hm⟩
    obtain ⟨d2, hemit, hkeys2, hget2⟩ :=
      emitPairs_ok (req.models.map (fun m => (m, taskResp env req d r m))) d r hpairs
    have hgood2 : GoodState req d2 :=
      ⟨fun m hm => hkeys2 ▸ hkeys_all m hm,
       fun m hm => hkeys_sub m (hkeys2 ▸ hm),
       hkeys2 ▸ hkeys_nd⟩
    have hndrest : rest.Nodup := hnd.of_cons
    have hrnotin : r ∉ rest := by
      simp only [List.nodup_cons] at hnd
      exact hnd.1
    obtain ⟨respFn', d', hrun', hkeys', hget'⟩ := ih d2 hndrest hgood2
    refine ⟨fun r2 m => if r2 = r then taskResp env req d r m else respFn' r2 m, d', ?_,
      by rw [hkeys', hkeys2], fun m => ?_⟩
    · simp only [runRounds, hbt, hemit, hrun']
      rw [List.flatMap_cons]
      have hhead : (req.models.map (fun m => (m, taskResp env req d r m))).map
          (fun p => Event.round r p.1 (specName p.1) (specColor p.1) p.2 (decide (1 < r)))
          = req.models.map (fun m => Event.round r m (specName m) (specColor m)
              (if r = r then taskResp env req d r m else respFn' r m) (decide (1 < r))) := by
        rw [List.map_map]
        apply List.map_congr_left
        intro m _
        simp
      have htail : rest.flatMap (fun r2 => req.models.map (fun m =>
            Event.round r2 m (specName m) (specColor m) (respFn' r2 m) (decide (1 < r2))))
          = rest.flatMap (fun r2 => req.models.map (fun m =>
            Event.round r2 m (specName m) (specColor m)
              (if r2 = r then taskResp env req d r m else respFn' r2 m) (decide (1 < r2)))) := by
        apply listFlatMapCongr
        intro r2 hr2
        apply List.map_congr_left
        intro m _
        have hne : r2 ≠ r := fun he => hrnotin (he ▸ hr2)
        simp [hne]
      rw [hhead, htail]
    · rw [hget' m, hget2 m]
      simp only [filter_map_pairs (taskResp env req d r) m req.models]
      cases hdm : dictGet d m with
      | none => simp
      | some h0 =>
        simp only [Option.map_some']
        have htail2 : rest.flatMap (fun r2 =>
              List.replicate (req.models.count m) (respFn' r2 m))
            = rest.flatMap (fun r2 => List.replicate (req.models.count m)
              (if r2 = r then taskResp env req d r m else respFn' r2 m)) := by
          apply listFlatMapCongr
          intro r2 hr2
          have hne : r2 ≠ r := fun he => hrnotin (he ▸ hr2)
          simp [hne]
        rw [List.flatMap_cons, if_pos rfl, ← htail2, List.append_assoc]

theorem buildFinal_ok : ∀ (d : DictS), (∀ p ∈ d, p.2 ≠ []) →
    ∃ final, buildFinal d = .ok final ∧ keysOf final = keysOf d := by
  intro d
  induction d with
  | nil => intro _; exact ⟨[], rfl, rfl⟩
  | cons p rest ih =>
    intro h
    obtain ⟨m, hist⟩ := p
    have hne : hist ≠ [] := h (m, hist) (List.mem_cons_self _ _)
    obtain ⟨last, hlast⟩ : ∃ x, hist.getLast? = some x := by
      cases hl : hist.getLast? with
      | none => exact absurd (List.getLast?_eq_none_iff.mp hl) hne
      | some x => exact ⟨x, rfl⟩
    obtain ⟨final, hfin, hkeys⟩ := ih (fun q hq => h q (List.mem_cons_of_mem _ hq))
    refine ⟨(m, last) :: final, ?_, ?_⟩
    · simp [buildFinal, hlast, hfin, Except.map]
    · simp only [keysOf, List.map_cons]
      simp only [keysOf] at hkeys
      rw [hkeys]

theorem summaryBody_ok : ∀ (l : List (String × String)),
    (∀ p ∈ l, (dictGet MODELS p.1).isSome) → ∃ s, summaryBody l = .ok s := by
  intro l
  induction l with
  | nil => intro _; exact ⟨"", rfl⟩
  | cons p rest ih =>
    intro h
    obtain ⟨m, resp⟩ := p
    obtain ⟨cfg, hcfg⟩ := Option.isSome_iff_exists.mp (h (m, resp) (List.mem_cons_self _ _))
    obtain ⟨s, hs⟩ := ih (fun q hq => h q (List.mem_cons_of_mem _ hq))
    refine ⟨"**" ++ cfg.name ++ "**: " ++ resp ++ "\n\n" ++ s, ?_⟩
    simp [summaryBody, hcfg, hs, Except.map]

theorem length_flatMap_replicate (c : Nat) (g : Nat → String) : ∀ (rs : List Nat),
    (rs.flatMap (fun r => List.replicate c (g r))).length = rs.length * c := by
  intro rs
  induction rs with
  | nil => simp
  | cons r rest ih => simp [List.flatMap_cons, ih, Nat.succ_mul, Nat.add_comm]

theorem length_flatMap_map {α β γ : Type} (l2 : List β) (g : α → β → γ) :
    ∀ (l1 : List α),
    (l1.flatMap (fun a => l2.map (g a))).length = l1.length * l2.length := by
  intro l1
  induction l1 with
  | nil => simp
  | cons a rest ih => simp [List.flatMap_cons, ih, Nat.succ_mul, Nat.add_comm]

theorem roundNumbers_nodup (R : Int) : (roundNumbers R).Nodup :=
  (List.nodup_range _).map (fun a b h => by omega)

theorem roundNumbers_length (R : Int) : (roundNumbers R).length = R.toNat := by
  simp [roundNumbers]

theorem stream_events_shape (env : Env) (req : DebateRequest) (hK : KnownModels req) :
    ∃ (respFn : Nat → String → String) (tailEvents : List Event),
      (run_debate_stream env req).1 =
        (roundNumbers req.rounds).flatMap (fun r => req.models.map (fun m =>
          Event.round r m (specName m) (specColor m) (respFn r m) (decide (1 < r))))
        ++ tailEvents
      ∧ ∀ e ∈ tailEvents, eventKey e = none := by
  obtain ⟨respFn, d', hrun, _, _⟩ :=
    runRounds_master env req hK (roundNumbers req.rounds) (initResponses req)
      (roundNumbers_nodup _) (GoodState_init req)
  refine ⟨respFn, ?_⟩
  cases hfb : buildFinal d' with
  | error e =>
    refine ⟨[], ?_, by simp⟩
    simp [run_debate_stream, hrun, hfb]
  | ok final =>
    cases hm : req.models with
    | nil =>
      refine ⟨[], ?_, by simp⟩
      simp [run_debate_stream, hrun, hfb, hm]
    | cons m0 tl =>
      cases hsp : summaryPrompt req final with
      | error e =>
        refine ⟨[], ?_, by simp⟩
        simp [run_debate_stream, hrun, hfb, hm, hsp]
      | ok sp =>
        refine ⟨[Event.consensus (call_model env m0 [⟨"user", sp⟩] (some neutralSystem))
          (analyze_consensus final), Event.done], ?_, ?_⟩
        · simp [run_debate_stream, hrun, hfb, hm, hsp]
        · intro e he
          simp only [List.mem_cons, List.mem_singleton, List.not_mem_nil, or_false] at he
          rcases he with rfl | rfl <;> rfl

theorem filterMap_eventKey_map (r : Nat) (respFn : Nat → String → String) :
    ∀ (models : List String),
    (models.map (fun m => Event.round r m (specName m) (specColor m) (respFn r m)
        (decide (1 < r)))).filterMap eventKey
      = models.map (fun m => (r, m)) := by
  intro models
  induction models with
  | nil => rfl
  | cons m ms ihm => simp [List.filterMap_cons, eventKey, ihm]

theorem filterMap_eventKey_rounds (models : List String) (respFn : Nat → String → String) :
    ∀ (rs : List Nat),
    (rs.flatMap (fun r => models.map (fun m =>
        Event.round r m (specName m) (specColor m) (respFn r m) (decide (1 < r))))).filterMap
      eventKey
      = rs.flatMap (fun r => models.map (fun m => (r, m))) := by
  intro rs
  induction rs with
  | nil => rfl
  | cons r rest ih =>
    simp only [List.flatMap_cons, List.filterMap_append, ih]
    rw [filterMap_eventKey_map]

/-- C2: under a catalog-known participant list, the `(round, participant)`
keys of the emitted events are exactly round-major, configured-participant-
order-minor — one RoundEvent per (round, participant), rounds in ascending
order, and within each round the configured order, independent of the
environment (hence of call completion order, which `asyncio.gather`
already re-sorts to submission order). -/
theorem claim2_round_event_order (env : Env) (req : DebateRequest) (hK : KnownModels req) :
    (run_debate_stream env req).1.filterMap eventKey
      = (roundNumbers req.rounds).flatMap (fun r => req.models.map (fun m => (r, m))) := by
  obtain ⟨respFn, tailEvents, hshape, htail⟩ := stream_events_shape env req hK
  rw [hshape, List.filterMap_append, List.filterMap_eq_nil_iff.mpr htail,
    List.append_nil, filterMap_eventKey_rounds]

/-- C1: with a non-empty catalog-known participant list and at least one
round, the stream is exactly P×R RoundEvents, then one ConsensusEvent,
then one DoneEvent, and the generator completes — for EVERY environment,
so in particular when calls time out or fail (failures are in-band text in
the response fields, never an aborted stream). -/
theorem claim1_event_counts (env : Env) (req : DebateRequest) (hK : KnownModels req)
    (hne : req.models ≠ []) (hR : 1 ≤ req.rounds) :
    ∃ revs s a,
      (run_debate_stream env req).1 = revs ++ [Event.consensus s a, Event.done]
      ∧ revs.length = req.models.length * req.rounds.toNat
      ∧ (∀ e ∈ revs, isRoundEvent e = true)
      ∧ (run_debate_stream env req).2 = true := by
  obtain ⟨respFn, d', hrun, hkeys, hget⟩ :=
    runRounds_master env req hK (roundNumbers req.rounds) (initResponses req)
      (roundNumbers_nodup _) (GoodState_init req)
  have hkeys_init_sub := (GoodState_init req).2.1
  have hnd_init := (GoodState_init req).2.2
  have hnd' : (keysOf d').Nodup := hkeys ▸ hnd_init
  have hvals : ∀ p ∈ d', p.2 ≠ [] := by
    intro p hp
    have hpk : p.1 ∈ keysOf d' := List.mem_map.mpr ⟨p, hp, rfl⟩
    have hpmodels : p.1 ∈ req.models := hkeys_init_sub p.1 (hkeys ▸ hpk)
    have hg := hget p.1
    rw [initResponses_get req p.1 hpmodels, dictGet_of_mem_nodup d' hnd' p hp] at hg
    have hp2 : p.2 = (roundNumbers req.rounds).flatMap
        (fun r => List.replicate (req.models.count p.1) (respFn r p.1)) := by
      simpa using hg
    rw [hp2]
    intro hempty
    have hlen := congrArg List.length hempty
    rw [length_flatMap_replicate, roundNumbers_length] at hlen
    simp only [List.length_nil] at hlen
    rcases Nat.mul_eq_zero.mp hlen with h1 | h1
    · omega
    · exact absurd hpmodels (List.count_eq_zero.mp h1)
  obtain ⟨final, hfinal, hfkeys⟩ := buildFinal_ok d' hvals
  obtain ⟨m0, tl, hm0⟩ : ∃ m0 tl, req.models = m0 :: tl := by
    cases hm : req.models with
    | nil => exact absurd hm hne
    | cons a b => exact ⟨a, b, rfl⟩
  have hsb : ∀ p ∈ final, (dictGet MODELS p.1).isSome := by
    intro p hp
    have hpk : p.1 ∈ keysOf final := List.mem_map.mpr ⟨p, hp, rfl⟩
    rw [hfkeys, hkeys] at hpk
    exact hK p.1 (hkeys_init_sub p.1 hpk)
  obtain ⟨body, hbody⟩ := summaryBody_ok final hsb
  have hsp : summaryPrompt req final = .ok
      ("Analyze these AI responses to the question: \"" ++ req.question ++ "\"\n\n"
        ++ body ++ summaryTail) := by
    simp [summaryPrompt, hbody, Except.map]
  refine ⟨(roundNumbers req.rounds).flatMap (fun r => req.models.map (fun m =>
      Event.round r m (specName m) (specColor m) (respFn r m) (decide (1 < r)))),
    call_model env m0
      [⟨"user", "Analyze these AI responses to the question: \"" ++ req.question ++ "\"\n\n"
        ++ body ++ summaryTail⟩] (some neutralSystem),
    analyze_consensus final, ?_, ?_, ?_, ?_⟩
  · simp [run_debate_stream, hrun, hfinal, hm0, hsp]
  · rw [length_flatMap_map, roundNumbers_length, Nat.mul_comm]
  · intro e he
    obtain ⟨r, _, he2⟩ := List.mem_flatMap.mp he
    obtain ⟨m, _, rfl⟩ := List.mem_map.mp he2
    rfl
  · simp [run_debate_stream, hrun, hfinal, hm0, hsp]

theorem flatMap_replicate_one {α : Type} (g : Nat → α) : ∀ (rs : List Nat),
    rs.flatMap (fun r => List.replicate 1 (g r)) = rs.map g := by
  intro rs
  induction rs with
  | nil => rfl
  | cons r rest ih =>
    simp only [List.flatMap_cons, ih, List.map_cons]
    rfl

theorem filterMap_respOf_map_not (m : String) (r : Nat) (g : String → String) (b : Bool) :
    ∀ (models : List String), m ∉ models →
    (models.map (fun m2 => Event.round r m2 (specName m2) (specColor m2) (g m2) b)).filterMap
      (respOf m) = [] := by
  intro models
  induction models with
  | nil => intro _; rfl
  | cons x xs ih =>
    intro h
    have hx : x ≠ m := fun he => h (he ▸ List.mem_cons_self x xs)
    have hxs : m ∉ xs := fun he => h (List.mem_cons_of_mem x he)
    simp [List.filterMap_cons, respOf, hx, ih hxs]

theorem filterMap_respOf_map_one (m : String) (r : Nat) (g : String → String) (b : Bool) :
    ∀ (models : List String), models.Nodup → m ∈ models →
    (models.map (fun m2 => Event.round r m2 (specName m2) (specColor m2) (g m2) b)).filterMap
      (respOf m) = [g m] := by
  intro models
  induction models with
  | nil => intro _ h; cases h
  | cons x xs ih =>
    intro hnd hm
    by_cases hx : x = m
    · subst hx
      have hnot : x ∉ xs := by
        simp only [List.nodup_cons] at hnd
        exact hnd.1
      simp [List.filterMap_cons, respOf, filterMap_respOf_map_not x r g b xs hnot]
    · have hm2 : m ∈ xs := by
        cases hm with
        | head => exact absurd rfl hx
        | tail _ h => exact h
      simp [List.filterMap_cons, respOf, hx, ih hnd.of_cons hm2]

theorem filterMap_respOf_rounds (m : String) (models : List String)
    (respFn : Nat → String → String) (hnd : models.Nodup) (hm : m ∈ models) :
    ∀ (rs : List Nat),
    (rs.flatMap (fun r => models.map (fun m2 =>
        Event.round r m2 (specName m2) (specColor m2) (respFn r m2)
          (decide (1 < r))))).filterMap (respOf m)
      = rs.map (fun r => respFn r m) := by
  intro rs
  induction rs with
  | nil => rfl
  | cons r rest ih =>
    simp only [List.flatMap_cons, List.filterMap_append, ih,
      filterMap_respOf_map_one m r (fun m2 => respFn r m2) (decide (1 < r)) models hnd hm]
    rfl

theorem runRounds_append (env : Env) (req : DebateRequest) : ∀ (rs1 rs2 : List Nat) (d : DictS),
    runRounds env req d (rs1 ++ rs2) =
      (match runRounds env req d rs1 with
       | (evs1, .error e) => (evs1, .error e)
       | (evs1, .ok d1) =>
         match runRounds env req d1 rs2 with
         | (evs2, res2) => (evs1 ++ evs2, res2)) := by
  intro rs1
  induction rs1 with
  | nil =>
    intro rs2 d
    simp only [List.nil_append, runRounds]
  | cons r rest ih =>
    intro rs2 d
    simp only [List.cons_append]
    cases hbt : buildTasks env req d r req.models with
    | error e => simp [runRounds, hbt]
    | ok pairs =>
      cases hemit : emitPairs d r pairs with
      | mk evs res =>
        cases res with
        | error e => simp [runRounds, hbt, hemit]
        | ok d2 =>
          have lhs_eq : runRounds env req d (r :: (rest ++ rs2)) =
              (evs ++ (runRounds env req d2 (rest ++ rs2)).1,
               (runRounds env req d2 (rest ++ rs2)).2) := by
            cases hr : runRounds env req d2 (rest ++ rs2) with
            | mk a b => simp [runRounds, hbt, hemit, hr]
          have rhs1 : runRounds env req d (r :: rest) =
              (evs ++ (runRounds env req d2 rest).1, (runRounds env req d2 rest).2) := by
            cases hr : runRounds env req d2 rest with
            | mk a b => simp [runRounds, hbt, hemit, hr]
          rw [lhs_eq, ih rs2 d2, rhs1]
          cases hr2 : runRounds env req d2 rest with
          | mk evs3 res3 =>
            cases res3 with
            | error e => simp
            | ok d3 =>
              cases runRounds env req d3 rs2 with
              | mk evs4 res4 => simp [List.append_assoc]

theorem runRounds_append_ok (env : Env) (req : DebateRequest) (rs1 rs2 : List Nat)
    (d : DictS) (evs1 : List Event) (d1 : DictS) (evs2 : List Event)
    (res2 : Except String DictS)
    (h1 : runRounds env req d rs1 = (evs1, .ok d1))
    (h2 : runRounds env req d1 rs2 = (evs2, res2)) :
    runRounds env req d (rs1 ++ rs2) = (evs1 ++ evs2, res2) := by
  have h := runRounds_append env req rs1 rs2 d
  simp only [h1] at h
  rw [h2] at h
  simpa using h

/-- C5: for a completed debate (duplicate-free catalog-known participant
list), each participant's `all_responses` history ends with exactly
`rounds` entries; the history equals, entry by entry and in emission
order, the response values carried by that participant's RoundEvents (one
per round, in round order — each entry is the value the adapter call for
that round returned); and the history only ever grows: after any prefix
of the rounds it is a prefix of the final history. -/
theorem claim5_history (env : Env) (req : DebateRequest) (hK : KnownModels req)
    (hnd : req.models.Nodup) (m : String) (hm : m ∈ req.models) :
    ∃ evs d' hist,
      runRounds env req (initResponses req) (roundNumbers req.rounds) = (evs, .ok d')
      ∧ dictGet d' m = some hist
      ∧ hist.length = req.rounds.toNat
      ∧ hist = evs.filterMap (respOf m)
      ∧ (∃ g : Nat → String, hist = (roundNumbers req.rounds).map g)
      ∧ (∀ rs1 rs2, roundNumbers req.rounds = rs1 ++ rs2 →
          ∀ evs1 st1, runRounds env req (initResponses req) rs1 = (evs1, .ok st1) →
          ∃ h1 h2, dictGet st1 m = some h1 ∧ hist = h1 ++ h2) := by
  obtain ⟨respFn, d', hrun, hkeys, hget⟩ :=
    runRounds_master env req hK (roundNumbers req.rounds) (initResponses req)
      (roundNumbers_nodup _) (GoodState_init req)
  have hcount : req.models.count m = 1 := List.count_eq_one_of_mem hnd hm
  have hgetm : dictGet d' m = some ((roundNumbers req.rounds).map (fun r => respFn r m)) := by
    rw [hget m, initResponses_get req m hm]
    simp only [hcount, Option.map_some', List.nil_append]
    rw [flatMap_replicate_one]
  refine ⟨_, d', (roundNumbers req.rounds).map (fun r => respFn r m), hrun, hgetm,
    by simp [roundNumbers_length], ?_, ⟨fun r => respFn r m, rfl⟩, ?_⟩
  · rw [filterMap_respOf_rounds m req.models respFn hnd hm]
  · intro rs1 rs2 hsplit evs1 st1 hrun1
    have hnd_split : (rs1 ++ rs2).Nodup := hsplit ▸ roundNumbers_nodup req.rounds
    obtain ⟨respFn1, st1x, hrun1x, hkeys1, hget1⟩ :=
      runRounds_master env req hK rs1 (initResponses req)
        hnd_split.of_append_left (GoodState_init req)
    have hst : st1x = st1 := by
      rw [hrun1] at hrun1x
      rw [Prod.mk.injEq] at hrun1x
      exact (Except.ok.inj hrun1x.2).symm
    rw [hst] at hkeys1 hget1
    have hgood1 : GoodState req st1 := by
      obtain ⟨g1, g2, g3⟩ := GoodState_init req
      exact ⟨fun m2 hm2 => hkeys1 ▸ g1 m2 hm2, fun m2 hm2 => g2 m2 (hkeys1 ▸ hm2),
        hkeys1 ▸ g3⟩
    obtain ⟨respFn2, d2x, hrun2, hkeys2, hget2⟩ :=
      runRounds_master env req hK rs2 st1 hnd_split.of_append_right hgood1
    have happ := runRounds_append_ok env req rs1 rs2 (initResponses req) evs1 st1 _ _ hrun1 hrun2
    rw [← hsplit, hrun] at happ
    have hd2 : d2x = d' := by
      rw [Prod.mk.injEq] at happ
      exact (Except.ok.inj happ.2).symm
    have hget1m : dictGet st1 m = some (rs1.flatMap
        (fun r => List.replicate (req.models.count m) (respFn1 r m))) := by
      rw [hget1 m, initResponses_get req m hm]
      simp
    refine ⟨_, rs2.flatMap (fun r => List.replicate (req.models.count m) (respFn2 r m)),
      hget1m, ?_⟩
    have hh := hget2 m
    rw [hget1m, hd2, hgetm] at hh
    simp only [Option.map_some'] at hh
    exact Option.some.inj hh

theorem containsStr_refl (s : String) : containsStr s s :=
  ⟨"", "", by simp [String.empty_append, String.append_empty]⟩

theorem containsStr_appL (a h s : String) (hc : containsStr h s) : containsStr (a ++ h) s := by
  obtain ⟨pre, post, heq⟩ := hc
  exact ⟨a ++ pre, post, by rw [heq]; simp [String.append_assoc]⟩

theorem containsStr_appR (h b s : String) (hc : containsStr h s) : containsStr (h ++ b) s := by
  obtain ⟨pre, post, heq⟩ := hc
  exact ⟨pre, post ++ b, by rw [heq]; simp [String.append_assoc]⟩

theorem containsStr_suffix (a s : String) : containsStr (a ++ s) s :=
  ⟨a, "", by simp [String.append_empty]⟩

theorem joinNL_contains : ∀ (items : List String) (s : String), s ∈ items →
    containsStr (joinNL items) s := by
  intro items
  induction items with
  | nil => intro s h; cases h
  | cons x rest ih =>
    intro s h
    cases rest with
    | nil =>
      simp only [List.mem_singleton] at h
      rw [h]
      exact containsStr_refl x
    | cons y t =>
      cases h with
      | head =>
        show containsStr ((x ++ "\n") ++ joinNL (y :: t)) x
        exact containsStr_appR _ _ _ (containsStr_appR _ _ _ (containsStr_refl x))
      | tail _ h2 =>
        exact containsStr_appL (x ++ "\n") _ s (ih s h2)

theorem laterContent_contains_own (req : DebateRequest) (own joined : String) :
    containsStr (laterContent req own joined) own := by
  unfold laterContent
  apply containsStr_appR
  apply containsStr_appR
  apply containsStr_appR
  exact containsStr_suffix _ own

theorem laterContent_contains_joined (req : DebateRequest) (own joined s : String)
    (h : containsStr joined s) : containsStr (laterContent req own joined) s := by
  unfold laterContent
  apply containsStr_appR
  apply containsStr_appL
  exact h

theorem mem_collectOthersSpec (d : DictS) (m0 o : String) (ho2 : o ≠ m0)
    (hist : List String) (hh : dictGet d o = some hist) (x : String)
    (hx : hist.getLast? = some x) :
    ∀ (l : List String), o ∈ l →
    ("**" ++ specName o ++ "**: " ++ x) ∈ collectOthersSpec d m0 l := by
  intro l hl
  unfold collectOthersSpec
  apply List.mem_filterMap.mpr
  refine ⟨o, hl, ?_⟩
  simp [ho2, hh, hx]

/-- C7: the round-1 user turn is the fixed template over the request's
context and question only (in particular it is independent of every
participant's responses); for rounds > 1, the user turn contains the
participant's own immediately-preceding response (or the placeholder
`N/A` when its history is empty) and the display-name-labeled literal
text of every other participant's immediately-preceding response. -/
theorem claim7_prompt_contents (req : DebateRequest) (d : DictS) (r : Nat) (m : String) :
    (roundPrompt req d 1 m = .ok ([⟨"user", round1Content req⟩], some round1System))
    ∧ (2 ≤ r →
        (∀ o ∈ req.models, o ∈ keysOf d ∧ (dictGet MODELS o).isSome) →
        m ∈ keysOf d →
        ∃ content,
          roundPrompt req d r m = .ok ([⟨"user", content⟩], some revisionSystem)
          ∧ (∀ hm, dictGet d m = some hm →
              ((hm.getLast? = none → containsStr content "N/A")
               ∧ ∀ x, hm.getLast? = some x → containsStr content x))
          ∧ (∀ o ho x, o ∈ req.models → o ≠ m → dictGet d o = some ho →
              ho.getLast? = some x →
              containsStr content ("**" ++ specName o ++ "**: " ++ x))) := by
  constructor
  · exact roundPrompt_one req d m
  · intro hr2 hall hm
    have hrne : r ≠ 1 := by omega
    obtain ⟨hist, hhist, heq⟩ := roundPrompt_later req d r m hrne hall hm
    refine ⟨laterContent req (histLast hist) (joinNL (collectOthersSpec d m req.models)),
      heq, ?_, ?_⟩
    · intro hm2 hhm2
      have hsame : hm2 = hist := by
        rw [hhist] at hhm2
        exact Option.some.inj hhm2.symm
      subst hsame
      constructor
      · intro hnone
        have hh : histLast hm2 = "N/A" := by simp [histLast, hnone]
        have hc := laterContent_contains_own req (histLast hm2)
          (joinNL (collectOthersSpec d m req.models))
        rw [hh] at hc ⊢
        exact hc
      · intro x hx
        have hh : histLast hm2 = x := by simp [histLast, hx]
        have hc := laterContent_contains_own req (histLast hm2)
          (joinNL (collectOthersSpec d m req.models))
        rw [hh] at hc ⊢
        exact hc
    · intro o ho x homem hone hgo hlast
      apply laterContent_contains_joined
      apply joinNL_contains
      exact mem_collectOthersSpec d m o hone ho hgo x hlast req.models homem

theorem mem_meaningfulCommon {rw : List (String × List String)} {w : String}
    (h : w ∈ meaningfulCommon rw) :
    3 < w.length ∧ stop_words.contains w = false ∧ ∀ p ∈ rw, w ∈ p.2 := by
  unfold meaningfulCommon at h
  by_cases hlen : rw.length > 1
  · rw [if_pos hlen] at h
    cases rw with
    | nil => cases h
    | cons q rest =>
      obtain ⟨k, first⟩ := q
      simp only [List.mem_filter] at h
      obtain ⟨⟨⟨hdedup, hall⟩, hstop⟩, hlen3⟩ := h
      refine ⟨by simpa using hlen3, by simpa using hstop, ?_⟩
      intro p hp
      cases hp with
      | head => exact List.mem_dedup.mp hdedup
      | tail _ hp2 =>
        have hc := (List.all_eq_true.mp hall) p hp2
        simpa using hc
  · rw [if_neg hlen] at h
    cases h

/-- C6: `analyze_consensus` returns at most 10 common themes, each of which
is a lower-cased whitespace token shared by every participant's response,
not a stop word, and longer than 3 characters; with fewer than 2
participants `common_themes` is empty; `response_lengths` is the raw
character length per participant and `models_compared` the participant
list in dict order. -/
theorem claim6_analyze_consensus (rs : List (String × String)) :
    (analyze_consensus rs).common_themes.length ≤ 10
    ∧ (∀ w ∈ (analyze_consensus rs).common_themes,
        3 < w.length ∧ stop_words.contains w = false ∧ ∀ p ∈ rs, w ∈ tokenize p.2)
    ∧ (rs.length < 2 → (analyze_consensus rs).common_themes = [])
    ∧ (analyze_consensus rs).response_lengths = rs.map (fun p => (p.1, p.2.length))
    ∧ (analyze_consensus rs).models_compared = rs.map (·.1) := by
  refine ⟨?_, ?_, ?_, rfl, rfl⟩
  · simp only [analyze_consensus]
    rw [List.length_take]
    exact Nat.min_le_left _ _
  · intro w hw
    simp only [analyze_consensus] at hw
    have hw2 := List.take_subset 10 _ hw
    obtain ⟨h3, hstop, hall⟩ := mem_meaningfulCommon hw2
    refine ⟨h3, hstop, ?_⟩
    intro p hp
    exact hall (p.1, tokenize p.2) (List.mem_map.mpr ⟨p, hp, rfl⟩)
  · intro hlt
    simp only [analyze_consensus]
    have hnot : ¬ ((rs.map (fun p => (p.1, tokenize p.2))).length > 1) := by
      simp only [List.length_map]
      omega
    rw [meaningfulCommon.eq_def, if_neg hnot]
    rfl

/-- C3: each adapter is total over every HTTP outcome by construction
(every `try/except` branch returns a string, as the embedding's total
match mirrors); a timeout yields the provider's fixed, deterministic
timeout string; and every non-success outcome yields a descriptive error
text, beginning either with the provider's API-error prefix or with
`Error`. -/
theorem claim3_adapters_total :
    (call_claude .timeout = "Error: Claude API request timed out")
    ∧ (call_gpt .timeout = "Error: GPT API request timed out")
    ∧ (call_gemini .timeout = "Error: Gemini API request timed out")
    ∧ (∀ o : HttpOutcome, (∀ t, o ≠ .success t) →
        (strHasPrefix "Claude API Error (" (call_claude o)
          ∨ strHasPrefix "Error" (call_claude o))
        ∧ (strHasPrefix "GPT API Error (" (call_gpt o)
          ∨ strHasPrefix "Error" (call_gpt o))
        ∧ (strHasPrefix "Gemini API Error (" (call_gemini o)
          ∨ strHasPrefix "Error" (call_gemini o))) := by
  refine ⟨rfl, rfl, rfl, ?_⟩
  intro o hns
  cases o with
  | success t => exact absurd rfl (hns t)
  | badStatus code em raw =>
    refine ⟨Or.inl ⟨toString code ++ "): " ++ em.getD raw, ?_⟩,
            Or.inl ⟨toString code ++ "): " ++ em.getD raw, ?_⟩,
            Or.inl ⟨toString code ++ "): " ++ em.getD raw, ?_⟩⟩ <;>
      simp [call_claude, call_gpt, call_gemini, String.append_assoc]
  | timeout =>
    exact ⟨Or.inr ⟨": Claude API request timed out", by decide⟩,
           Or.inr ⟨": GPT API request timed out", by decide⟩,
           Or.inr ⟨": Gemini API request timed out", by decide⟩⟩
  | failure msg =>
    refine ⟨Or.inr ⟨" calling Claude: " ++ msg, ?_⟩,
            Or.inr ⟨" calling GPT: " ++ msg, ?_⟩,
            Or.inr ⟨" calling Gemini: " ++ msg, ?_⟩⟩ <;>
    · rw [← String.append_assoc]
      congr 1

theorem claim3_witness :
    (strHasPrefix "Claude API Error (" (call_claude (.badStatus 500 none "boom"))
      ∨ strHasPrefix "Error" (call_claude (.badStatus 500 none "boom")))
    ∧ call_gpt .timeout = "Error: GPT API request timed out" :=
  ⟨(claim3_adapters_total.2.2.2 (.badStatus 500 none "boom")
      (fun _t h => HttpOutcome.noConfusion h)).1,
   claim3_adapters_total.2.1⟩

/-- C8 (amended): if two participants' responses both contain the token
`consciousness`, then `consciousness` is in the meaningful common-token
set, and — PROVIDED that set has at most 10 elements — it appears in
`common_themes`.  The unconditional claim fails because the code truncates
an arbitrarily-ordered set to its first 10 elements. -/
theorem claim8_consciousness (a b ra rb : String)
    (hlen : (meaningfulCommon [(a, tokenize ra), (b, tokenize rb)]).length ≤ 10)
    (ha : "consciousness" ∈ tokenize ra) (hb : "consciousness" ∈ tokenize rb) :
    "consciousness" ∈ (analyze_consensus [(a, ra), (b, rb)]).common_themes := by
  have hmem : "consciousness" ∈ meaningfulCommon [(a, tokenize ra), (b, tokenize rb)] := by
    rw [meaningfulCommon.eq_def]
    rw [if_pos (by simp)]
    simp only []
    refine List.mem_filter.mpr ⟨List.mem_filter.mpr ⟨List.mem_filter.mpr
      ⟨List.mem_dedup.mpr ha, ?_⟩, ?_⟩, ?_⟩
    · simp [hb]
    · decide
    · decide
  have heq : (analyze_consensus [(a, ra), (b, rb)]).common_themes
      = meaningfulCommon [(a, tokenize ra), (b, tokenize rb)] := by
    simp only [analyze_consensus, List.map_cons, List.map_nil]
    exact List.take_of_length_le hlen
  rw [heq]
  exact hmem

theorem claim8_witness :
    "consciousness" ∈ (analyze_consensus
      [("a", "consciousness emerges gradually"),
       ("b", "consciousness emerges quickly")]).common_themes :=
  claim8_consciousness "a" "b" "consciousness emerges gradually"
    "consciousness emerges quickly" (by decide) (by decide) (by decide)

/-- C8 counterexample: both responses contain the token `consciousness`,
yet `common_themes` omits it — there are 11 qualifying common tokens and
the code keeps only the first 10 of its arbitrarily-ordered set. -/
theorem claim8_counterexample :
    ("consciousness" ∈ tokenize "apple banana cherry durian eggplant falafel guava honeydew icecream jackfruit consciousness")
    ∧ "consciousness" ∉ (analyze_consensus
        [("a", "apple banana cherry durian eggplant falafel guava honeydew icecream jackfruit consciousness"),
         ("b", "apple banana cherry durian eggplant falafel guava honeydew icecream jackfruit consciousness")]).common_themes := by
  decide

theorem emitPairs_all_round : ∀ (pairs : List (String × String)) (d : DictS) (r : Nat),
    ∀ e ∈ (emitPairs d r pairs).1, isRoundEvent e = true := by
  intro pairs
  induction pairs with
  | nil =>
    intro d r e he
    simp only [emitPairs] at he
    cases he
  | cons q rest ih =>
    intro d r e he
    obtain ⟨k, v⟩ := q
    simp only [emitPairs] at he
    cases hdk : dictGet d k with
    | none =>
      rw [hdk] at he
      simp at he
    | some hist =>
      rw [hdk] at he
      cases hmk : dictGet MODELS k with
      | none =>
        rw [hmk] at he
        simp at he
      | some cfg =>
        rw [hmk] at he
        simp only at he
        cases hrr : emitPairs (dictInsert d k (hist ++ [v])) r rest with
        | mk evs res =>
          rw [hrr] at he
          simp only [List.mem_cons] at he
          rcases he with rfl | he2
          · rfl
          · have := ih (dictInsert d k (hist ++ [v])) r e
            rw [hrr] at this
            exact this he2

theorem emitPairs_error_of_unknown : ∀ (pairs : List (String × String)) (d : DictS) (r : Nat),
    (∀ p ∈ pairs, p.1 ∈ keysOf d) →
    (∃ p ∈ pairs, dictGet MODELS p.1 = none) →
    ∃ evs e, emitPairs d r pairs = (evs, .error e) := by
  intro pairs
  induction pairs with
  | nil =>
    intro d r _ hex
    obtain ⟨p, hp, _⟩ := hex
    cases hp
  | cons q rest ih =>
    intro d r hkeys hex
    obtain ⟨k, v⟩ := q
    obtain ⟨hist, hhist⟩ := Option.isSome_iff_exists.mp
      ((mem_keysOf_iff d k).mp (hkeys (k, v) (List.mem_cons_self _ _)))
    cases hmk : dictGet MODELS k with
    | none =>
      refine ⟨[], "KeyError: " ++ k, ?_⟩
      simp [emitPairs, hhist, hmk]
    | some cfg =>
      have hex2 : ∃ p ∈ rest, dictGet MODELS p.1 = none := by
        obtain ⟨p, hp, hpn⟩ := hex
        cases hp with
        | head =>
          rw [hmk] at hpn
          cases hpn
        | tail _ hp2 => exact ⟨p, hp2, hpn⟩
      have hkeys2 : ∀ p ∈ rest, p.1 ∈ keysOf (dictInsert d k (hist ++ [v])) := by
        intro p hp
        rw [keysOf_dictInsert, if_pos ((mem_keysOf_iff d k).mpr (by rw [hhist]; rfl))]
        exact hkeys p (List.mem_cons_of_mem _ hp)
      obtain ⟨evs, e, hrec⟩ := ih (dictInsert d k (hist ++ [v])) r hkeys2 hex2
      refine ⟨Event.round r k cfg.name cfg.color v (decide (1 < r)) :: evs, e, ?_⟩
      simp [emitPairs, hhist, hmk, hrec]

theorem roundNumbers_pos (R : Int) (h : 1 ≤ R) : ∃ rest, roundNumbers R = 1 :: rest := by
  unfold roundNumbers
  have h2 : R.toNat = (R.toNat - 1) + 1 := by omega
  rw [h2, List.range_succ_eq_map]
  exact ⟨List.map ((fun i => i + 1) ∘ Nat.succ) (List.range (R.toNat - 1)), by simp⟩

/-- C4 (amended): the router does return the string `"Unknown model: <id>"`
synchronously for an unknown identifier (no exception at the router), BUT
the orchestrator then raises a `KeyError` on the catalog lookup
`MODELS[model_id]["name"]` while emitting that participant's first
RoundEvent, so the stream aborts: the generator does not complete and no
ConsensusEvent or DoneEvent is emitted (every emitted event is a
RoundEvent of configured-order-earlier participants). -/
theorem claim4_unknown_model :
    (∀ (env : Env) (messages : List Message) (system : Option String) (id : String),
        id ≠ "claude" → id ≠ "gpt" → id ≠ "gemini" →
        call_model env id messages system = "Unknown model: " ++ id)
    ∧ (∀ (env : Env) (req : DebateRequest), 1 ≤ req.rounds →
        (∃ b ∈ req.models, dictGet MODELS b = none) →
        (run_debate_stream env req).2 = false
        ∧ ∀ e ∈ (run_debate_stream env req).1, isRoundEvent e = true) := by
  constructor
  · intro env messages system id h1 h2 h3
    simp [call_model, h1, h2, h3]
  · intro env req hR hex
    obtain ⟨rest, hrn⟩ := roundNumbers_pos req.rounds hR
    have hbt := buildTasks_ok env req (initResponses req) 1 req.models
      (fun m _ => ⟨_, roundPrompt_one req (initResponses req) m⟩)
    have hkeys : ∀ p ∈ req.models.map (fun m => (m, taskResp env req (initResponses req) 1 m)),
        p.1 ∈ keysOf (initResponses req) := by
      intro p hp
      obtain ⟨m, hm, rfl⟩ := List.mem_map.mp hp
      exact (GoodState_init req).1 m hm
    have hexp : ∃ p ∈ req.models.map (fun m => (m, taskResp env req (initResponses req) 1 m)),
        dictGet MODELS p.1 = none := by
      obtain ⟨b, hb, hbn⟩ := hex
      exact ⟨(b, taskResp env req (initResponses req) 1 b), List.mem_map.mpr ⟨b, hb, rfl⟩, hbn⟩
    obtain ⟨evs, e, hemit⟩ := emitPairs_error_of_unknown _ _ 1 hkeys hexp
    have hrr : runRounds env req (initResponses req) (roundNumbers req.rounds)
        = (evs, .error e) := by
      rw [hrn]
      simp [runRounds, hbt, hemit]
    constructor
    · simp [run_debate_stream, hrr]
    · intro ev hev
      have h1 : (run_debate_stream env req).1 = evs := by
        simp [run_debate_stream, hrr]
      rw [h1] at hev
      have h2 := emitPairs_all_round
        (req.models.map (fun m => (m, taskResp env req (initResponses req) 1 m)))
        (initResponses req) 1 ev
      rw [hemit] at h2
      exact h2 hev

/-- C4 counterexample: with the unknown participant id `bogus` configured,
the router does return the sentinel string, but the debate does NOT
complete normally — the stream aborts with no ConsensusEvent and no
DoneEvent ever emitted (here: zero events and an abnormal termination),
refuting the claim as stated. -/
theorem claim4_counterexample :
    call_model (fun _ _ _ => .timeout) "bogus" [] none = "Unknown model: bogus"
    ∧ run_debate_stream (fun _ _ _ => .timeout)
        ⟨"c", "q", [], ["bogus"], 1⟩ = ([], false)
    ∧ Event.done ∉ (run_debate_stream (fun _ _ _ => .timeout)
        ⟨"c", "q", [], ["bogus"], 1⟩).1 := by
  decide

theorem claim4_witness :
    call_model (fun _ _ _ => .timeout) "bogus" [] none = "Unknown model: bogus"
    ∧ ((run_debate_stream (fun _ _ _ => .timeout)
          ⟨"c", "q", [], ["claude", "bogus"], 1⟩).2 = false
       ∧ ∀ e ∈ (run_debate_stream (fun _ _ _ => .timeout)
          ⟨"c", "q", [], ["claude", "bogus"], 1⟩).1, isRoundEvent e = true) :=
  ⟨claim4_unknown_model.1 (fun _ _ _ => .timeout) [] none "bogus"
      (by decide) (by decide) (by decide),
   claim4_unknown_model.2 (fun _ _ _ => .timeout) ⟨"c", "q", [], ["claude", "bogus"], 1⟩
      (by decide) ⟨"bogus", by decide, by decide⟩⟩

/-- C9: the debate stream is a pure function of the request and the
adapter outcomes — with fixed, deterministic adapter return values
(pointwise-equal environments) and equal requests, two runs produce
identical event sequences (including the `common_themes` list inside the
ConsensusEvent, which is part of the events). -/
theorem claim9_determinism (env1 env2 : Env) (req1 req2 : DebateRequest)
    (henv : ∀ p ms s, env1 p ms s = env2 p ms s) (hreq : req1 = req2) :
    run_debate_stream env1 req1 = run_debate_stream env2 req2 := by
  have he : env1 = env2 := funext fun p => funext fun ms => funext fun s => henv p ms s
  rw [he, hreq]

theorem claim9_witness :
    run_debate_stream (fun _ _ _ => .timeout) ⟨"c", "q", [], ["claude"], 1⟩
      = run_debate_stream (fun p _ _ => if p = p then .timeout else .success "x")
          ⟨"c", "q", [], ["claude"], 1⟩ :=
  claim9_determinism _ _ _ _ (fun p _ _ => by simp) rfl

theorem foldl_init_head : ∀ (l : List String) (m0 : String) (restd : DictS),
    ∃ restd2, l.foldl (fun acc x => dictInsert acc x []) ((m0, ([] : List String)) :: restd)
      = (m0, ([] : List String)) :: restd2 := by
  intro l
  induction l with
  | nil => intro m0 restd; exact ⟨restd, rfl⟩
  | cons x xs ih =>
    intro m0 restd
    simp only [List.foldl_cons]
    by_cases h : m0 = x
    · have heq : dictInsert ((m0, ([] : List String)) :: restd) x []
          = (m0, ([] : List String)) :: restd := by
        simp [dictInsert, h]
      rw [heq]
      exact ih m0 restd
    · have heq : dictInsert ((m0, ([] : List String)) :: restd) x []
          = (m0, ([] : List String)) :: dictInsert restd x [] := by
        simp [dictInsert, h]
      rw [heq]
      exact ih m0 _

/-- C10: `rounds` is never validated (it is a plain int defaulting to 2);
with `rounds < 1` and a non-empty participant list the loop body never
runs, so zero RoundEvents are emitted, and building `final_responses`
indexes `responses[-1]` on an empty history, raising IndexError: the
stream aborts with no ConsensusEvent and no DoneEvent. -/
theorem claim10_nonpositive_rounds (env : Env) (req : DebateRequest) (m0 : String)
    (tl : List String) (hm : req.models = m0 :: tl) (hR : req.rounds < 1) :
    run_debate_stream env req = ([], false) := by
  have hrn : roundNumbers req.rounds = [] := by
    unfold roundNumbers
    have h0 : req.rounds.toNat = 0 := by omega
    rw [h0]
    rfl
  obtain ⟨restd, hinit⟩ : ∃ restd, initResponses req = (m0, ([] : List String)) :: restd := by
    unfold initResponses
    rw [hm]
    simp only [List.foldl_cons]
    exact foldl_init_head tl m0 []
  have hbf : buildFinal (initResponses req) = .error "IndexError: list index out of range" := by
    rw [hinit]
    rfl
  simp [run_debate_stream, hrn, runRounds, hbf]

theorem claim10_witness :
    run_debate_stream (fun _ _ _ => .timeout) ⟨"c", "q", [], ["claude"], 0⟩ = ([], false) :=
  claim10_nonpositive_rounds (fun _ _ _ => .timeout) ⟨"c", "q", [], ["claude"], 0⟩
    "claude" [] rfl (by decide)

theorem claim1_witness :
    ∃ revs s a,
      (run_debate_stream (fun _ _ _ => .timeout)
          ⟨"c", "q", [], ["claude", "gpt"], 2⟩).1 = revs ++ [Event.consensus s a, Event.done]
      ∧ revs.length = 4
      ∧ (∀ e ∈ revs, isRoundEvent e = true)
      ∧ (run_debate_stream (fun _ _ _ => .timeout)
          ⟨"c", "q", [], ["claude", "gpt"], 2⟩).2 = true :=
  claim1_event_counts (fun _ _ _ => .timeout) ⟨"c", "q", [], ["claude", "gpt"], 2⟩
    (by unfold KnownModels; decide) (by decide) (by decide)

theorem claim2_witness :
    (run_debate_stream (fun _ _ _ => .timeout)
        ⟨"c", "q", [], ["claude", "gpt"], 1⟩).1.filterMap eventKey
      = [(1, "claude"), (1, "gpt")] := by
  rw [claim2_round_event_order (fun _ _ _ => .timeout)
    ⟨"c", "q", [], ["claude", "gpt"], 1⟩ (by unfold KnownModels; decide)]
  decide

theorem claim5_witness :
    ∃ evs d' hist,
      runRounds (fun _ _ _ => HttpOutcome.timeout) ⟨"c", "q", [], ["claude"], 1⟩
          (initResponses ⟨"c", "q", [], ["claude"], 1⟩) (roundNumbers 1) = (evs, .ok d')
      ∧ dictGet d' "claude" = some hist
      ∧ hist.length = 1
      ∧ hist = evs.filterMap (respOf "claude")
      ∧ (∃ g : Nat → String, hist = (roundNumbers 1).map g)
      ∧ (∀ rs1 rs2, roundNumbers 1 = rs1 ++ rs2 →
          ∀ evs1 st1, runRounds (fun _ _ _ => HttpOutcome.timeout)
              ⟨"c", "q", [], ["claude"], 1⟩ (initResponses ⟨"c", "q", [], ["claude"], 1⟩)
              rs1 = (evs1, .ok st1) →
          ∃ h1 h2, dictGet st1 "claude" = some h1 ∧ hist = h1 ++ h2) :=
  claim5_history (fun _ _ _ => HttpOutcome.timeout) ⟨"c", "q", [], ["claude"], 1⟩
    (by unfold KnownModels; decide) (by decide) "claude" (by decide)

theorem claim6_witness :
    (analyze_consensus [("a", "The cat sat"), ("b", "A cat sat there")]).common_themes.length ≤ 10
    ∧ (analyze_consensus [("solo", "only one participant")]).common_themes = [] :=
  ⟨(claim6_analyze_consensus [("a", "The cat sat"), ("b", "A cat sat there")]).1,
   (claim6_analyze_consensus [("solo", "only one participant")]).2.2.1 (by decide)⟩

theorem claim7_witness :
    ∃ content,
      roundPrompt ⟨"c", "q", [], ["claude", "gpt"], 2⟩
          [("claude", ["a1"]), ("gpt", ["b1"])] 2 "claude"
        = .ok ([⟨"user", content⟩], some revisionSystem)
      ∧ (∀ hm, dictGet [("claude", ["a1"]), ("gpt", ["b1"])] "claude" = some hm →
          ((hm.getLast? = none → containsStr content "N/A")
           ∧ ∀ x, hm.getLast? = some x → containsStr content x))
      ∧ (∀ o ho x, o ∈ (⟨"c", "q", [], ["claude", "gpt"], 2⟩ : DebateRequest).models →
          o ≠ "claude" → dictGet [("claude", ["a1"]), ("gpt", ["b1"])] o = some ho →
          ho.getLast? = some x →
          containsStr content ("**" ++ specName o ++ "**: " ++ x)) :=
  (claim7_prompt_contents ⟨"c", "q", [], ["claude", "gpt"], 2⟩
      [("claude", ["a1"]), ("gpt", ["b1"])] 2 "claude").2
    (by decide) (by decide) (by decide)
